import Mathlib

/-!
Verification of the `bench-locks` benchmark (`src/main.rs`).

The program builds `max_counters` lock-guarded `u64` counters of one of two
variants (`Counter`, backed by `std::sync::RwLock`; `AsyncCounter`, backed by
`async_std::sync::RwLock`), generates `per_counter_operations_cnt` random
read/write operations per counter, spawns each operation on a shared executor,
collects all results and prints one summary line.  `main` performs four such
runs with fixed parameters.

Modelling choices:
* `u64` values are modelled as `Nat`.  The program performs no arithmetic on
  the stored values (only stores and loads), and every stored payload comes
  from `gen_range(0, 10000)`, so no `u64` overflow can occur and `Nat` is
  exact.
* The thread-local RNG is a single sequential stream of raw uniform words
  (`stream : Nat → Nat` with a cursor).  `gen_bool p` compares a draw mapped
  into `[0,1)` against `p`; `gen_range lo hi` maps a draw into `[lo, hi)`.
  The `f64` probability argument is modelled as a rational number; the four
  ratios appearing in the program (`0.9`, `0.5`, and the scenario values
  `1.0`, `0.0`) are all exactly representable in `f64`.
* Each operation's body (`get`, or `set` followed by returning the payload)
  is a single lock-protected critical section, so any concurrent execution is
  equivalent to running the operations in some linearization order: a
  permutation of the generated operation list.  Theorems quantify over all
  such permutations.
* The `Arc` backing storage of a counter handle is modelled as a cell
  identifier `inner : Nat`; `clone` copies the identifier (`Arc::clone`),
  so clones share the cell.
-/

namespace BenchLocks

/-- Raw-word width used when mapping a PRNG draw into the unit interval
(`rand`'s `f64` sampling uses 53 bits of the word). -/
def RAND_UNIT_DENOM : Nat := 2 ^ 53

/-- The sequential pseudo-random source (`thread_rng()`): a stream of raw
uniform words together with a cursor.  `gen_bool` and `gen_range` each
consume one word. -/
structure Rng where
  stream : Nat → Nat
  pos : Nat

/-- Model of `rng.gen_bool(p)`: draw a word, map it into `[0,1)`, return whether it is
below `p`.  For `p = 1` this is always `true`, for `p = 0` always `false`. -/
def Rng.genBool (r : Rng) (p : ℚ) : Bool × Rng :=
  (decide (((r.stream r.pos % RAND_UNIT_DENOM : Nat) : ℚ) / (RAND_UNIT_DENOM : ℚ) < p),
   ⟨r.stream, r.pos + 1⟩)

/-- Model of `rng.gen_range(lo, hi)`: draw a word and map it into `[lo, hi)`. -/
def Rng.genRange (r : Rng) (lo hi : Nat) : Nat × Rng :=
  (lo + r.stream r.pos % (hi - lo), ⟨r.stream, r.pos + 1⟩)

/-- A handle to a `std::sync::RwLock`-guarded counter: `inner` identifies the
shared `Arc` storage cell. -/
structure Counter where
  inner : Nat
deriving DecidableEq

/-- Model of `Counter::clone`: `Arc::clone(&self.inner)` — the new handle refers to the
same storage cell. -/
def Counter.clone (c : Counter) : Counter :=
  ⟨c.inner⟩

/-- A handle to an `async_std::sync::RwLock`-guarded counter. -/
structure AsyncCounter where
  inner : Nat
deriving DecidableEq

/-- Model of `AsyncCounter::clone`: `Arc::clone(&self.inner)`. -/
def AsyncCounter.clone (a : AsyncCounter) : AsyncCounter :=
  ⟨a.inner⟩

/-- The two implementors of `CounterTrait`. -/
inductive CounterVariant where
  | blocking
  | suspending
deriving DecidableEq

/-- Display name from `CounterTrait::name`. -/
def CounterVariant.vname : CounterVariant → String
  | .blocking => "Counter"
  | .suspending => "AsyncCounter"

/-- A counter handle as used by the generic workload generator: the cell
identifier of the `Arc` storage shared by all clones (both variants clone the
`Arc` identically). -/
structure CounterHandle where
  inner : Nat
deriving DecidableEq

/-- Cloning a handle shares the storage cell (`Arc::clone`). -/
def CounterHandle.clone (c : CounterHandle) : CounterHandle :=
  ⟨c.inner⟩

/-- One planned operation, bound to a counter via a cloned handle: either
`counter.get()` or `counter.set(new_val)` returning `new_val`. -/
inductive Op where
  | read (counter : CounterHandle)
  | write (counter : CounterHandle) (payload : Nat)
deriving DecidableEq

/-- The handle an operation is bound to. -/
def Op.handle : Op → CounterHandle
  | .read c => c
  | .write c _ => c

/-- Model of `C::new()` executed `max_counters` times: the `i`-th `Arc` allocation is
cell `i`, each initialized to `0`. -/
def mkCounters (n : Nat) : List CounterHandle :=
  (List.range n).map (fun i => ⟨i⟩)

/-- The inner generation loop of `test` for one counter: `k` iterations, each
cloning the handle, drawing `gen_bool(ratio)` and, for a write, a payload via
`gen_range(0, 10000)`. -/
def genOpsForCounter (counter : CounterHandle) : Nat → ℚ → Rng → List Op × Rng
  | 0, _, r => ([], r)
  | k + 1, ratio, r =>
    let c := counter.clone
    let (isRead, r1) := r.genBool ratio
    if isRead then
      let (rest, r2) := genOpsForCounter counter k ratio r1
      (Op.read c :: rest, r2)
    else
      let (v, r2) := r1.genRange 0 10000
      let (rest, r3) := genOpsForCounter counter k ratio r2
      (Op.write c v :: rest, r3)

/-- The outer generation loop of `test`: counters `index`, `index+1`, … while
`rem` counters remain, taking `counters[index]` for each block. -/
def genOpsFrom (counters : List CounterHandle) (k : Nat) (ratio : ℚ) :
    Nat → Nat → Rng → List Op × Rng
  | _, 0, r => ([], r)
  | index, rem + 1, r =>
    let (ops1, r1) := genOpsForCounter (counters.getD index ⟨0⟩) k ratio r
    let (rest, r2) := genOpsFrom counters k ratio (index + 1) rem r1
    (ops1 ++ rest, r2)

/-- All operations generated by one invocation of `test` with `n` counters and
`k` operations per counter. -/
def generatedOps (n k : Nat) (ratio : ℚ) (r : Rng) : List Op :=
  (genOpsFrom (mkCounters n) k ratio 0 n r).1

/-- Counter cells at run start: every `RwLock::new(0)` holds `0`. -/
def initState : Nat → Nat :=
  fun _ => 0

/-- One operation's lock-protected critical section: a read copies the cell's
value; a write stores its payload and the future returns that payload. -/
def execStep (s : Nat → Nat) : Op → Nat × (Nat → Nat)
  | .read c => (s c.inner, s)
  | .write c v => (v, fun x => if x = c.inner then v else s x)

/-- Run a linearization of the operations, threading the shared cells and
recording each operation's resolved value. -/
def execOps : List Op → (Nat → Nat) → List Nat × (Nat → Nat)
  | [], s => ([], s)
  | op :: rest, s =>
    let (v, s1) := execStep s op
    let (vs, s2) := execOps rest s1
    (v :: vs, s2)

/-- The summary line printed at the end of `test`
(the format string interpolates name, elapsed milliseconds, ratio, and
first value, in that order). -/
def outputLine (name : String) (millis : Nat) (ratioStr : String) (firstVal : Nat) : String :=
  name ++ ", time spent: " ++ toString millis ++ " milliseconds, ratio: " ++
    ratioStr ++ ", first val: " ++ toString firstVal

/-- The happy path of `test` (no lock poisoning, every `spawn_with_handle`
succeeds): generate the operations, run them in linearization order `sched`,
and report `results[0]` — `none` models the panic when `results` is empty.
`ratio` is the numeric value of the `f64` argument and `ratioStr` its
displayed form; `millis` is the measured elapsed time. -/
def testRun (variant : CounterVariant) (n k : Nat) (ratio : ℚ) (rng : Rng)
    (sched : List Op) (millis : Nat) (ratioStr : String) : Option String :=
  let _ops := generatedOps n k ratio rng
  let (results, _) := execOps sched initState
  match results.get? 0 with
  | some v => some (outputLine variant.vname millis ratioStr v)
  | none => none

/-! ### Shape of the generated workload -/

theorem genOpsForCounter_length (c : CounterHandle) (k : Nat) (ratio : ℚ) (r : Rng) :
    (genOpsForCounter c k ratio r).1.length = k := by
  induction k generalizing r with
  | zero => rfl
  | succ k ih =>
    simp only [genOpsForCounter]
    by_cases h : (r.genBool ratio).1
    · simp [h, ih]
    · simp [h, ih]

theorem genOpsForCounter_handle (c : CounterHandle) (k : Nat) (ratio : ℚ) (r : Rng) :
    ∀ op ∈ (genOpsForCounter c k ratio r).1, op.handle = c := by
  induction k generalizing r with
  | zero => intro op h; simp [genOpsForCounter] at h
  | succ k ih =>
    intro op h
    simp only [genOpsForCounter] at h
    by_cases hb : (r.genBool ratio).1
    · simp [hb] at h
      rcases h with h | h
      · subst h; rfl
      · exact ih _ op h
    · simp [hb] at h
      rcases h with h | h
      · subst h; rfl
      · exact ih _ op h

theorem genOpsFrom_length (counters : List CounterHandle) (k : Nat) (ratio : ℚ)
    (i m : Nat) (r : Rng) :
    (genOpsFrom counters k ratio i m r).1.length = m * k := by
  induction m generalizing i r with
  | zero => simp [genOpsFrom]
  | succ m ih =>
    simp only [genOpsFrom, List.length_append, genOpsForCounter_length, ih]
    ring

theorem genOpsFrom_handle (counters : List CounterHandle) (k : Nat) (ratio : ℚ)
    (i m : Nat) (r : Rng) :
    ∀ op ∈ (genOpsFrom counters k ratio i m r).1,
      ∃ j, i ≤ j ∧ j < i + m ∧ op.handle = counters.getD j ⟨0⟩ := by
  induction m generalizing i r with
  | zero => intro op h; simp [genOpsFrom] at h
  | succ m ih =>
    intro op h
    simp only [genOpsFrom, List.mem_append] at h
    rcases h with h | h
    · exact ⟨i, le_refl i, by omega, genOpsForCounter_handle _ _ _ _ op h⟩
    · obtain ⟨j, hj1, hj2, hj3⟩ := ih (i + 1) _ op h
      exact ⟨j, by omega, by omega, hj3⟩

theorem mkCounters_getD (n j : Nat) (hj : j < n) :
    (mkCounters n).getD j ⟨0⟩ = ⟨j⟩ := by
  simp [mkCounters, List.getD, List.getElem?_map, List.getElem?_range hj]

theorem genOpsFrom_filter_count (n k : Nat) (ratio : ℚ) (i m : Nat) (r : Rng) (t : Nat)
    (hm : i + m ≤ n) :
    ((genOpsFrom (mkCounters n) k ratio i m r).1.filter
        (fun op => op.handle.inner = t)).length =
      if i ≤ t ∧ t < i + m then k else 0 := by
  induction m generalizing i r with
  | zero =>
    simp only [genOpsFrom, List.filter_nil, List.length_nil]
    rw [if_neg (by omega)]
  | succ m ih =>
    simp only [genOpsFrom, List.filter_append, List.length_append]
    have hblock : ∀ op ∈ (genOpsForCounter ((mkCounters n).getD i ⟨0⟩) k ratio r).1,
        op.handle = (⟨i⟩ : CounterHandle) := by
      intro op hop
      rw [genOpsForCounter_handle _ _ _ _ op hop, mkCounters_getD n i (by omega)]
    have hrest := ih (i + 1) ((genOpsForCounter ((mkCounters n).getD i ⟨0⟩) k ratio r).2)
      (by omega)
    rw [hrest]
    by_cases hti : t = i
    · subst hti
      have hfs : (genOpsForCounter ((mkCounters n).getD t ⟨0⟩) k ratio r).1.filter
          (fun op => op.handle.inner = t) =
          (genOpsForCounter ((mkCounters n).getD t ⟨0⟩) k ratio r).1 := by
        apply List.filter_eq_self.mpr
        intro op hop
        simp [hblock op hop]
      rw [hfs, genOpsForCounter_length]
      have h1 : ¬ (t + 1 ≤ t ∧ t < t + 1 + m) := by omega
      have h2 : t ≤ t ∧ t < t + (m + 1) := by omega
      simp [h1, h2]
    · have hfn : (genOpsForCounter ((mkCounters n).getD i ⟨0⟩) k ratio r).1.filter
          (fun op => op.handle.inner = t) = [] := by
        apply List.filter_eq_nil_iff.mpr
        intro op hop
        simp [hblock op hop]
        omega
      rw [hfn]
      simp only [List.length_nil, Nat.zero_add]
      by_cases hcond : i + 1 ≤ t ∧ t < i + 1 + m
      · have : i ≤ t ∧ t < i + (m + 1) := by omega
        simp [hcond, this]
      · have : ¬ (i ≤ t ∧ t < i + (m + 1)) := by omega
        simp [hcond, this]

theorem generatedOps_length (n k : Nat) (ratio : ℚ) (r : Rng) :
    (generatedOps n k ratio r).length = n * k := by
  simp [generatedOps, genOpsFrom_length]

theorem generatedOps_handle_mem (n k : Nat) (ratio : ℚ) (r : Rng) :
    ∀ op ∈ generatedOps n k ratio r, op.handle ∈ mkCounters n := by
  intro op h
  obtain ⟨j, hj1, hj2, hj3⟩ := genOpsFrom_handle (mkCounters n) k ratio 0 n r op h
  rw [hj3, mkCounters_getD n j (by omega)]
  simp only [mkCounters, List.mem_map]
  exact ⟨j, List.mem_range.mpr (by omega), rfl⟩

/-- C1: one invocation of the driver generates and submits exactly `n * k`
operations; each operation is bound to one of the `n` counters through a
cloned handle, and exactly `k` operations are bound to each counter. -/
theorem C1_workload_shape (n k : Nat) (ratio : ℚ) (rng : Rng) :
    (generatedOps n k ratio rng).length = n * k ∧
    (∀ op ∈ generatedOps n k ratio rng, op.handle ∈ mkCounters n) ∧
    (∀ i, i < n →
      ((generatedOps n k ratio rng).filter (fun op => op.handle.inner = i)).length = k) := by
  refine ⟨generatedOps_length n k ratio rng, generatedOps_handle_mem n k ratio rng, ?_⟩
  intro i hi
  have := genOpsFrom_filter_count n k ratio 0 n rng i (by omega)
  rw [generatedOps, this, if_pos (by omega)]

theorem C1_workload_shape_witness :
    ((generatedOps 2 3 (1/2) ⟨fun _ => 0, 0⟩).filter
        (fun op => op.handle.inner = 1)).length = 3 :=
  (C1_workload_shape 2 3 (1/2) ⟨fun _ => 0, 0⟩).2.2 1 (by decide)

/-! ### RNG boundary behaviour and execution lemmas -/

theorem genBool_one (r : Rng) : r.genBool 1 = (true, ⟨r.stream, r.pos + 1⟩) := by
  simp only [Rng.genBool, Prod.mk.injEq, and_true]
  rw [decide_eq_true_eq]
  have hpos : (0 : ℚ) < (RAND_UNIT_DENOM : ℚ) := by norm_num [RAND_UNIT_DENOM]
  rw [div_lt_one hpos]
  exact_mod_cast Nat.mod_lt _ (by norm_num [RAND_UNIT_DENOM])

theorem genBool_zero (r : Rng) : r.genBool 0 = (false, ⟨r.stream, r.pos + 1⟩) := by
  simp only [Rng.genBool, Prod.mk.injEq, and_true]
  rw [decide_eq_false_iff_not, not_lt]
  positivity

theorem execOps_length (l : List Op) (s : Nat → Nat) :
    (execOps l s).1.length = l.length := by
  induction l generalizing s with
  | nil => rfl
  | cons op rest ih => simp [execOps, ih]

theorem genOpsForCounter_read_of_one (c : CounterHandle) (k : Nat) (r : Rng) :
    ∀ op ∈ (genOpsForCounter c k 1 r).1, ∃ h, op = Op.read h := by
  induction k generalizing r with
  | zero => intro op h; simp [genOpsForCounter] at h
  | succ k ih =>
    intro op hm
    simp only [genOpsForCounter, genBool_one, if_true, List.mem_cons] at hm
    rcases hm with hm | hm
    · exact ⟨c.clone, hm⟩
    · exact ih _ op hm

theorem genOpsFrom_read_of_one (counters : List CounterHandle) (k i m : Nat) (r : Rng) :
    ∀ op ∈ (genOpsFrom counters k 1 i m r).1, ∃ h, op = Op.read h := by
  induction m generalizing i r with
  | zero => intro op h; simp [genOpsFrom] at h
  | succ m ih =>
    intro op hm
    simp only [genOpsFrom, List.mem_append] at hm
    rcases hm with hm | hm
    · exact genOpsForCounter_read_of_one _ _ _ op hm
    · exact ih _ _ op hm

theorem execOps_allReads (l : List Op) (s : Nat → Nat)
    (h : ∀ op ∈ l, ∃ c, op = Op.read c) :
    execOps l s = (l.map (fun op => s op.handle.inner), s) := by
  induction l with
  | nil => rfl
  | cons op rest ih =>
    obtain ⟨c, hc⟩ := h op (List.mem_cons_self op rest)
    subst hc
    simp only [execOps, execStep]
    rw [ih (fun o ho => h o (List.mem_cons_of_mem _ ho))]
    rfl

/-- C2: every counter cell starts at 0, and in the scenario `N = 2`, `K = 100`,
`p = 1` every generated operation is a read, every collected result is 0, and
the reported sample value (`results[0]`) is 0, whatever the linearization and
collection order. -/
theorem C2_always_read_scenario (rng : Rng) (sched : List Op)
    (hs : sched.Perm (generatedOps 2 100 1 rng)) :
    (∀ c, initState c = 0) ∧
    (∀ op ∈ generatedOps 2 100 1 rng, ∃ c, op = Op.read c) ∧
    (∀ v ∈ (execOps sched initState).1, v = 0) ∧
    (∀ variant millis ratioStr,
      testRun variant 2 100 1 rng sched millis ratioStr =
        some (outputLine variant.vname millis ratioStr 0)) := by
  have hreads : ∀ op ∈ sched, ∃ c, op = Op.read c := by
    intro op hop
    exact genOpsFrom_read_of_one _ _ _ _ _ op (hs.mem_iff.mp hop)
  have hexec : execOps sched initState = (sched.map (fun op => initState op.handle.inner),
      initState) := execOps_allReads sched initState hreads
  have hlen : sched.length = 200 := by
    rw [hs.length_eq, generatedOps_length]
  refine ⟨fun _ => rfl, fun op hop => genOpsFrom_read_of_one _ _ _ _ _ op hop, ?_, ?_⟩
  · intro v hv
    rw [hexec] at hv
    simp only [List.mem_map] at hv
    obtain ⟨op, _, hop⟩ := hv
    exact hop.symm
  · intro variant millis ratioStr
    cases sched with
    | nil => simp at hlen
    | cons op rest =>
      rw [testRun, hexec]
      simp [initState]

/-- C3: every write operation's payload is drawn from `[0, 10000)`
(`gen_range(0, 10000)`), a write stores its payload into its counter's cell,
and the spawned future resolves to that same payload. -/
theorem C3_write_payload (n k : Nat) (ratio : ℚ) (rng : Rng) :
    (∀ c v, Op.write c v ∈ generatedOps n k ratio rng → v < 10000) ∧
    (∀ (s : Nat → Nat) (c : CounterHandle) (v : Nat),
      (execStep s (Op.write c v)).1 = v ∧ (execStep s (Op.write c v)).2 c.inner = v) := by
  constructor
  · have hfc : ∀ (c0 : CounterHandle) (k0 : Nat) (r : Rng) (c : CounterHandle) (v : Nat),
        Op.write c v ∈ (genOpsForCounter c0 k0 ratio r).1 → v < 10000 := by
      intro c0 k0
      induction k0 with
      | zero => intro r c v h; simp [genOpsForCounter] at h
      | succ k0 ih =>
        intro r c v h
        simp only [genOpsForCounter] at h
        by_cases hb : (r.genBool ratio).1
        · simp [hb] at h
          exact ih _ c v h
        · simp [hb] at h
          rcases h with ⟨h1, h2⟩ | h
          · subst h2
            simp only [Rng.genRange]
            omega
          · exact ih _ c v h
    have hfrom : ∀ (counters : List CounterHandle) (i m : Nat) (r : Rng)
        (c : CounterHandle) (v : Nat),
        Op.write c v ∈ (genOpsFrom counters k ratio i m r).1 → v < 10000 := by
      intro counters i m
      induction m generalizing i with
      | zero => intro r c v h; simp [genOpsFrom] at h
      | succ m ih =>
        intro r c v h
        simp only [genOpsFrom, List.mem_append] at h
        rcases h with h | h
        · exact hfc _ _ _ c v h
        · exact ih _ _ c v h
    intro c v h
    exact hfrom _ _ _ _ c v h
  · intro s c v
    exact ⟨rfl, by simp [execStep]⟩

theorem C3_write_payload_witness :
    (10 : Nat) < 10000 ∧ ∀ (s : Nat → Nat) (c : CounterHandle) (v : Nat),
      (execStep s (Op.write c v)).1 = v ∧ (execStep s (Op.write c v)).2 c.inner = v :=
  ⟨(C3_write_payload 1 1 0 ⟨fun _ => 10, 0⟩).1 ⟨0⟩ 10 (by
      simp [generatedOps, genOpsFrom, genOpsForCounter, genBool_zero, Rng.genRange,
        mkCounters, CounterHandle.clone]),
   (C3_write_payload 1 1 0 ⟨fun _ => 10, 0⟩).2⟩

/-- C4: in the scenario `N = 1`, `K = 1`, `p = 0` exactly one operation is
generated and it is a write; after the run the counter cell holds that write's
payload and the reported sample value equals the same payload. -/
theorem C4_always_write_scenario (rng : Rng) (sched : List Op)
    (hs : sched.Perm (generatedOps 1 1 0 rng)) :
    ∃ v, v < 10000 ∧
      generatedOps 1 1 0 rng = [Op.write ⟨0⟩ v] ∧
      (execOps sched initState).2 0 = v ∧
      (∀ variant millis ratioStr,
        testRun variant 1 1 0 rng sched millis ratioStr =
          some (outputLine variant.vname millis ratioStr v)) := by
  refine ⟨rng.stream (rng.pos + 1) % 10000, Nat.mod_lt _ (by norm_num), ?_⟩
  have hgen : generatedOps 1 1 0 rng = [Op.write ⟨0⟩ (rng.stream (rng.pos + 1) % 10000)] := by
    simp [generatedOps, genOpsFrom, genOpsForCounter, genBool_zero, Rng.genRange,
      mkCounters, CounterHandle.clone]
  rw [hgen] at hs
  have hsched : sched = [Op.write ⟨0⟩ (rng.stream (rng.pos + 1) % 10000)] :=
    List.perm_singleton.mp hs
  subst hsched
  refine ⟨hgen, by simp [execOps, execStep, initState], ?_⟩
  intro variant millis ratioStr
  rw [testRun]
  simp [execOps, execStep]

theorem C4_always_write_scenario_witness :
    ∃ v, v < 10000 ∧
      generatedOps 1 1 0 ⟨fun _ => 42, 0⟩ = [Op.write ⟨0⟩ v] ∧
      (execOps (generatedOps 1 1 0 ⟨fun _ => 42, 0⟩) initState).2 0 = v ∧
      (∀ variant millis ratioStr,
        testRun variant 1 1 0 ⟨fun _ => 42, 0⟩ (generatedOps 1 1 0 ⟨fun _ => 42, 0⟩)
            millis ratioStr =
          some (outputLine variant.vname millis ratioStr v)) :=
  C4_always_write_scenario ⟨fun _ => 42, 0⟩ _ (List.Perm.refl _)

/-! ### Which values a read can observe -/

theorem execOps_nil (s : Nat → Nat) : execOps [] s = ([], s) :=
  rfl

theorem execOps_cons (hd : Op) (tl : List Op) (s : Nat → Nat) :
    execOps (hd :: tl) s =
      ((execStep s hd).1 :: (execOps tl (execStep s hd).2).1,
        (execOps tl (execStep s hd).2).2) :=
  rfl

theorem execOps_getElem? (l : List Op) (s : Nat → Nat) (i : Nat) (op : Op)
    (h : l[i]? = some op) :
    (execOps l s).1[i]? = some ((execStep (execOps (l.take i) s).2 op).1) := by
  induction l generalizing s i with
  | nil => simp at h
  | cons hd tl ih =>
    cases i with
    | zero =>
      simp only [List.getElem?_cons_zero, Option.some.injEq] at h
      subst h
      rw [execOps_cons]
      simp [execOps_nil]
    | succ i =>
      simp only [List.getElem?_cons_succ] at h
      rw [execOps_cons, List.take_succ_cons]
      simpa using ih (execStep s hd).2 i h

theorem execOps_state_idx (l : List Op) (s : Nat → Nat) (x : Nat) :
    (execOps l s).2 x = s x ∨
    ∃ (k : Nat) (ck : CounterHandle) (w : Nat), l[k]? = some (Op.write ck w) ∧ ck.inner = x ∧ (execOps l s).2 x = w := by
  induction l generalizing s with
  | nil => left; rfl
  | cons hd tl ih =>
    rw [execOps_cons]
    rcases ih (execStep s hd).2 with h | ⟨k, ck, w, hk, hck, hw⟩
    · cases hd with
      | read c => left; rw [h]; rfl
      | write c v =>
        by_cases hx : x = c.inner
        · right
          refine ⟨0, c, v, by simp, hx.symm, ?_⟩
          rw [h]
          simp [execStep, hx]
        · left
          rw [h]
          simp [execStep, hx]
    · right
      refine ⟨k + 1, ck, w, ?_, hck, hw⟩
      simpa using hk

theorem execOps_state_write_after (l : List Op) (s : Nat → Nat) (x i : Nat)
    (c : CounterHandle) (v : Nat) (hi : l[i]? = some (Op.write c v)) (hx : c.inner = x) :
    ∃ (k : Nat) (ck : CounterHandle) (w : Nat), i ≤ k ∧ l[k]? = some (Op.write ck w) ∧ ck.inner = x ∧
      (execOps l s).2 x = w := by
  induction l generalizing s i with
  | nil => simp at hi
  | cons hd tl ih =>
    rw [execOps_cons]
    cases i with
    | zero =>
      simp only [List.getElem?_cons_zero, Option.some.injEq] at hi
      subst hi
      rcases execOps_state_idx tl (execStep s (Op.write c v)).2 x with h | ⟨k, ck, w, hk, hck, hw⟩
      · refine ⟨0, c, v, Nat.le_refl 0, by simp, hx, ?_⟩
        rw [h]
        simp [execStep, hx.symm]
      · refine ⟨k + 1, ck, w, Nat.zero_le _, ?_, hck, hw⟩
        simpa using hk
    | succ i =>
      simp only [List.getElem?_cons_succ] at hi
      obtain ⟨k, ck, w, hki, hk, hck, hw⟩ := ih (execStep s hd).2 i hi
      refine ⟨k + 1, ck, w, by omega, ?_, hck, hw⟩
      simpa using hk

/-- C5: in every execution, each value resolved by a `get` operation is either
0 (the initial value) or the payload of some `set` executed earlier in the
linearization on the same counter cell; no other value is ever observed. -/
theorem C5_get_observes_written (sched : List Op) (i : Nat) (c : CounterHandle)
    (h : sched[i]? = some (Op.read c)) :
    ∃ v, (execOps sched initState).1[i]? = some v ∧
      (v = 0 ∨ ∃ (k : Nat) (ck : CounterHandle), k < i ∧ sched[k]? = some (Op.write ck v) ∧ ck.inner = c.inner) := by
  have hres := execOps_getElem? sched initState i _ h
  refine ⟨(execOps (sched.take i) initState).2 c.inner, hres, ?_⟩
  rcases execOps_state_idx (sched.take i) initState c.inner with h0 | ⟨k, ck, w, hk, hck, hw⟩
  · left
    rw [h0]
    rfl
  · right
    rw [List.getElem?_take] at hk
    by_cases hki : k < i
    · rw [if_pos hki] at hk
      exact ⟨k, ck, hki, by rw [hw]; exact hk, hck⟩
    · rw [if_neg hki] at hk
      exact absurd hk (by simp)

theorem C5_get_observes_written_witness :
    ∃ v, (execOps [Op.write ⟨0⟩ 5, Op.read ⟨0⟩] initState).1[1]? = some v ∧
      (v = 0 ∨ ∃ (k : Nat) (ck : CounterHandle), k < 1 ∧ ([Op.write ⟨0⟩ 5, Op.read ⟨0⟩] : List Op)[k]? =
        some (Op.write ck v) ∧ ck.inner = (⟨0⟩ : CounterHandle).inner) :=
  C5_get_observes_written [Op.write ⟨0⟩ 5, Op.read ⟨0⟩] 1 ⟨0⟩ rfl

/-- C8: for both variants `clone` yields a handle to the same storage cell,
and a read linearized after a completed write on the same cell resolves to
that write's payload or a later write's payload — never a stale snapshot. -/
theorem C8_clone_shares_cell :
    (∀ c : Counter, c.clone = c) ∧
    (∀ a : AsyncCounter, a.clone = a) ∧
    (∀ h : CounterHandle, h.clone = h) ∧
    (∀ (sched : List Op) (i j : Nat) (cw cr : CounterHandle) (v : Nat),
      sched[i]? = some (Op.write cw v) → sched[j]? = some (Op.read cr) →
      cr.inner = cw.inner → i < j →
      ∃ (k : Nat) (ck : CounterHandle) (w : Nat), i ≤ k ∧ k < j ∧ sched[k]? = some (Op.write ck w) ∧ ck.inner = cw.inner ∧
        (execOps sched initState).1[j]? = some w) := by
  refine ⟨fun c => rfl, fun a => rfl, fun h => rfl, ?_⟩
  intro sched i j cw cr v hi hj hcr hij
  have hres := execOps_getElem? sched initState j _ hj
  have hitake : (sched.take j)[i]? = some (Op.write cw v) := by
    rw [List.getElem?_take, if_pos hij]
    exact hi
  obtain ⟨k, ck, w, hik, hk, hck, hw⟩ :=
    execOps_state_write_after (sched.take j) initState cw.inner i cw v hitake rfl
  rw [List.getElem?_take] at hk
  by_cases hkj : k < j
  · rw [if_pos hkj] at hk
    refine ⟨k, ck, w, hik, hkj, hk, hck, ?_⟩
    rw [hres]
    simp only [execStep, hcr, hw]
  · rw [if_neg hkj] at hk
    exact absurd hk (by simp)

theorem C8_clone_shares_cell_witness :
    ∃ (k : Nat) (ck : CounterHandle) (w : Nat), 0 ≤ k ∧ k < 1 ∧ ([Op.write ⟨0⟩ 5, Op.read ⟨0⟩] : List Op)[k]? =
      some (Op.write ck w) ∧ ck.inner = (⟨0⟩ : CounterHandle).inner ∧
      (execOps [Op.write ⟨0⟩ 5, Op.read ⟨0⟩] initState).1[1]? = some w :=
  C8_clone_shares_cell.2.2.2 [Op.write ⟨0⟩ 5, Op.read ⟨0⟩] 0 1 ⟨0⟩ ⟨0⟩ 5 rfl rfl rfl
    (by decide)

theorem C2_always_read_scenario_witness :
    testRun CounterVariant.blocking 2 100 1 ⟨fun _ => 0, 0⟩
        (generatedOps 2 100 1 ⟨fun _ => 0, 0⟩) 7 "1" =
      some (outputLine CounterVariant.blocking.vname 7 "1" 0) :=
  (C2_always_read_scenario ⟨fun _ => 0, 0⟩ _ (List.Perm.refl _)).2.2.2
    CounterVariant.blocking 7 "1"

/-! ### The report step and the `results[0]` panic -/

theorem testRun_ne_nil (variant : CounterVariant) (n k : Nat) (ratio : ℚ) (rng : Rng)
    (sched : List Op) (millis : Nat) (ratioStr : String) (h : sched ≠ []) :
    ∃ v, (execOps sched initState).1.get? 0 = some v ∧
      testRun variant n k ratio rng sched millis ratioStr =
        some (outputLine variant.vname millis ratioStr v) := by
  cases sched with
  | nil => exact absurd rfl h
  | cons hd tl => exact ⟨(execStep initState hd).1, rfl, rfl⟩

/-- C10: the report step indexes `results[0]`, so it needs `n ≥ 1` and
`k ≥ 1`; with `n = 0` or `k = 0` the collected results are empty and the run
panics (`none`) instead of reporting, while with `n, k ≥ 1` a line is
reported. -/
theorem C10_report_needs_nonempty (variant : CounterVariant) (n k : Nat) (ratio : ℚ)
    (rng : Rng) (sched : List Op) (millis : Nat) (ratioStr : String)
    (hs : sched.Perm (generatedOps n k ratio rng)) :
    ((n = 0 ∨ k = 0) → testRun variant n k ratio rng sched millis ratioStr = none) ∧
    (1 ≤ n → 1 ≤ k →
      ∃ line, testRun variant n k ratio rng sched millis ratioStr = some line) := by
  have hlen : sched.length = n * k := by rw [hs.length_eq, generatedOps_length]
  constructor
  · intro h0
    have hz : sched.length = 0 := by rcases h0 with h | h <;> simp [hlen, h]
    have hnil : sched = [] := List.length_eq_zero.mp hz
    subst hnil
    rfl
  · intro hn hk
    have hne : sched ≠ [] := by
      intro hnil
      subst hnil
      have := Nat.mul_pos hn hk
      simp at hlen
      omega
    obtain ⟨v, _, hv⟩ := testRun_ne_nil variant n k ratio rng sched millis ratioStr hne
    exact ⟨_, hv⟩

theorem C10_report_needs_nonempty_witness :
    testRun CounterVariant.blocking 0 5 1 ⟨fun _ => 0, 0⟩ [] 3 "1" = none :=
  (C10_report_needs_nonempty CounterVariant.blocking 0 5 1 ⟨fun _ => 0, 0⟩ [] 3 "1"
    (List.Perm.refl [])).1 (Or.inl rfl)

/-! ### Failure propagation (`unwrap` on poisoned locks and on spawn) -/

/-- Which cells' locks have been poisoned by a panicking holder. -/
structure PoisonState where
  poisoned : Nat → Bool

/-- Model of `Counter::get` with its `.unwrap()`: `none` models the panic on a
poisoned lock; otherwise the cell's current value is returned — never a
stale or default value. -/
def getChecked (ps : PoisonState) (s : Nat → Nat) (c : CounterHandle) : Option Nat :=
  if ps.poisoned c.inner then none else some (s c.inner)

/-- One operation under the poisoning-aware semantics: `lock().unwrap()`
panics (`none`) on a poisoned cell, otherwise behaves as `execStep`. -/
def execStepChecked (ps : PoisonState) (s : Nat → Nat) : Op → Option (Nat × (Nat → Nat))
  | .read c => if ps.poisoned c.inner then none else some (s c.inner, s)
  | .write c v =>
    if ps.poisoned c.inner then none
    else some (v, fun x => if x = c.inner then v else s x)

/-- Run a linearization under the poisoning-aware semantics; any panic aborts
the whole run. -/
def execOpsChecked (ps : PoisonState) : List Op → (Nat → Nat) → Option (List Nat × (Nat → Nat))
  | [], s => some ([], s)
  | op :: rest, s =>
    match execStepChecked ps s op with
    | none => none
    | some (v, s1) =>
      match execOpsChecked ps rest s1 with
      | none => none
      | some (vs, s2) => some (v :: vs, s2)

/-- The submission loop: `executor.spawn_with_handle(fut).unwrap()` for the
`i`-th operation panics (`none`) when the executor rejects the submission. -/
def submitAll (spawnOk : Nat → Bool) : List Op → Nat → Option (List Op)
  | [], _ => some []
  | op :: rest, i =>
    if spawnOk i then
      match submitAll spawnOk rest (i + 1) with
      | some l => some (op :: l)
      | none => none
    else none

/-- Model of `test` under the failure-aware semantics: submission failures and
poisoned locks abort the run before any line is reported. -/
def testRunChecked (ps : PoisonState) (spawnOk : Nat → Bool) (variant : CounterVariant)
    (n k : Nat) (ratio : ℚ) (rng : Rng) (sched : List Op) (millis : Nat)
    (ratioStr : String) : Option String :=
  match submitAll spawnOk (generatedOps n k ratio rng) 0 with
  | none => none
  | some _ =>
    match execOpsChecked ps sched initState with
    | none => none
    | some (results, _) =>
      match results.get? 0 with
      | some v => some (outputLine variant.vname millis ratioStr v)
      | none => none

theorem execStepChecked_none (ps : PoisonState) (s : Nat → Nat) (op : Op)
    (h : ps.poisoned op.handle.inner = true) :
    execStepChecked ps s op = none := by
  cases op <;> simp_all [execStepChecked, Op.handle]

theorem execOpsChecked_none (ps : PoisonState) (sched : List Op) (s : Nat → Nat)
    (h : ∃ op ∈ sched, ps.poisoned op.handle.inner = true) :
    execOpsChecked ps sched s = none := by
  induction sched generalizing s with
  | nil => simp at h
  | cons hd tl ih =>
    by_cases hp : ps.poisoned hd.handle.inner = true
    · simp [execOpsChecked, execStepChecked_none ps s hd hp]
    · obtain ⟨op, hmem, hop⟩ := h
      have hop_tl : op ∈ tl := by
        rcases List.mem_cons.mp hmem with heq | htl
        · subst heq; exact absurd hop hp
        · exact htl
      cases hstep : execStepChecked ps s hd with
      | none => simp [execOpsChecked, hstep]
      | some p =>
        obtain ⟨v, s1⟩ := p
        simp [execOpsChecked, hstep, ih s1 ⟨op, hop_tl, hop⟩]

theorem submitAll_none (spawnOk : Nat → Bool) (ops : List Op) (i : Nat)
    (h : ∃ j, i ≤ j ∧ j < i + ops.length ∧ spawnOk j = false) :
    submitAll spawnOk ops i = none := by
  induction ops generalizing i with
  | nil =>
    obtain ⟨j, h1, h2, _⟩ := h
    simp at h2
    omega
  | cons hd tl ih =>
    obtain ⟨j, h1, h2, h3⟩ := h
    by_cases hi : spawnOk i = true
    · have hji : j ≠ i := fun he => by rw [he] at h3; rw [h3] at hi; exact Bool.noConfusion hi
      have : submitAll spawnOk tl (i + 1) = none := by
        apply ih
        refine ⟨j, by omega, by simp at h2; omega, h3⟩
      simp [submitAll, hi, this]
    · rw [submitAll, if_neg hi]

/-- C6: any failure — a lock poisoned by a panicking holder, or a failed
executor submission — aborts the run (`none`): it is never caught, retried,
or masked by a stale or default value, and `get` never returns a value from a
poisoned lock. -/
theorem C6_failures_propagate :
    (∀ (ps : PoisonState) (s : Nat → Nat) (c : CounterHandle),
      ps.poisoned c.inner = true → getChecked ps s c = none) ∧
    (∀ (ps : PoisonState) (sched : List Op) (s : Nat → Nat),
      (∃ op ∈ sched, ps.poisoned op.handle.inner = true) →
      execOpsChecked ps sched s = none) ∧
    (∀ (ps : PoisonState) (spawnOk : Nat → Bool) (variant : CounterVariant)
      (n k : Nat) (ratio : ℚ) (rng : Rng) (sched : List Op) (millis : Nat)
      (ratioStr : String),
      ((∃ j, j < n * k ∧ spawnOk j = false) ∨
        (∃ op ∈ sched, ps.poisoned op.handle.inner = true)) →
      testRunChecked ps spawnOk variant n k ratio rng sched millis ratioStr = none) := by
  refine ⟨fun ps s c h => by simp [getChecked, h], execOpsChecked_none, ?_⟩
  intro ps spawnOk variant n k ratio rng sched millis ratioStr h
  rcases h with ⟨j, hj, hfail⟩ | hp
  · have hsub : submitAll spawnOk (generatedOps n k ratio rng) 0 = none := by
      apply submitAll_none
      refine ⟨j, Nat.zero_le j, ?_, hfail⟩
      rw [generatedOps_length]
      omega
    simp [testRunChecked, hsub]
  · cases hsub : submitAll spawnOk (generatedOps n k ratio rng) 0 with
    | none => simp [testRunChecked, hsub]
    | some l =>
      simp [testRunChecked, hsub, execOpsChecked_none ps sched initState hp]

theorem C6_failures_propagate_witness :
    testRunChecked ⟨fun _ => true⟩ (fun _ => true) CounterVariant.blocking 1 1 0
      ⟨fun _ => 0, 0⟩ [Op.read ⟨0⟩] 0 "0" = none :=
  C6_failures_propagate.2.2 ⟨fun _ => true⟩ (fun _ => true) CounterVariant.blocking 1 1 0
    ⟨fun _ => 0, 0⟩ [Op.read ⟨0⟩] 0 "0" (Or.inr ⟨Op.read ⟨0⟩, by simp, rfl⟩)

/-! ### The four fixed runs of `main` -/

/-- Display (`\x7b\x7d` format) of the `f64` literal `0.9` bound to `read_write_ratio`. -/
def ratioDisplay09 : String := "0.9"

/-- Display (`\x7b\x7d` format) of the `f64` literal `0.5` bound to `read_write_ratio`. -/
def ratioDisplay05 : String := "0.5"

/-- Per-run environment left open by the embedding: the state of the shared
`thread_rng`, the linearization chosen by the scheduler, and the measured
elapsed milliseconds. -/
structure RunEnv where
  rng : Rng
  sched : List Op
  millis : Nat

/-- Model of `main`: four sequential `test` invocations over the shared executor —
`Counter` then `AsyncCounter` at ratio `0.9`, then `Counter` then
`AsyncCounter` at ratio `0.5`, all with 100 counters and 10000 operations
per counter; each yields one printed line. -/
def mainModel (e1 e2 e3 e4 : RunEnv) : List (Option String) :=
  let max_counters := 100
  let per_counter_operations_cnt := 10000
  [testRun CounterVariant.blocking max_counters per_counter_operations_cnt (9/10)
      e1.rng e1.sched e1.millis ratioDisplay09,
   testRun CounterVariant.suspending max_counters per_counter_operations_cnt (9/10)
      e2.rng e2.sched e2.millis ratioDisplay09,
   testRun CounterVariant.blocking max_counters per_counter_operations_cnt (1/2)
      e3.rng e3.sched e3.millis ratioDisplay05,
   testRun CounterVariant.suspending max_counters per_counter_operations_cnt (1/2)
      e4.rng e4.sched e4.millis ratioDisplay05]

theorem sched_ne_nil_of_perm (sched : List Op) (n k : Nat) (ratio : ℚ) (rng : Rng)
    (hs : sched.Perm (generatedOps n k ratio rng)) (hn : 1 ≤ n) (hk : 1 ≤ k) :
    sched ≠ [] := by
  intro hnil
  have hlen : sched.length = n * k := by rw [hs.length_eq, generatedOps_length]
  rw [hnil] at hlen
  have := Nat.mul_pos hn hk
  simp at hlen
  omega

/-- C7: `main` performs exactly the four runs of the fixed matrix in order
(`Counter` 100/10000/0.9, `AsyncCounter` 100/10000/0.9, `Counter`
100/10000/0.5, `AsyncCounter` 100/10000/0.5), each emitting one line that
contains the variant's display name, the elapsed milliseconds, the configured
ratio, and the first collected result's value. -/
theorem C7_fixed_run_matrix (e1 e2 e3 e4 : RunEnv)
    (h1 : e1.sched.Perm (generatedOps 100 10000 (9/10) e1.rng))
    (h2 : e2.sched.Perm (generatedOps 100 10000 (9/10) e2.rng))
    (h3 : e3.sched.Perm (generatedOps 100 10000 (1/2) e3.rng))
    (h4 : e4.sched.Perm (generatedOps 100 10000 (1/2) e4.rng)) :
    ∃ (v1 v2 v3 v4 : Nat),
      mainModel e1 e2 e3 e4 =
        [some (outputLine CounterVariant.blocking.vname e1.millis ratioDisplay09 v1),
         some (outputLine CounterVariant.suspending.vname e2.millis ratioDisplay09 v2),
         some (outputLine CounterVariant.blocking.vname e3.millis ratioDisplay05 v3),
         some (outputLine CounterVariant.suspending.vname e4.millis ratioDisplay05 v4)] ∧
      ∀ (name : String) (millis : Nat) (ratioStr : String) (v : Nat),
        List.IsInfix name.data (outputLine name millis ratioStr v).data ∧
        List.IsInfix (toString millis).data (outputLine name millis ratioStr v).data ∧
        List.IsInfix ratioStr.data (outputLine name millis ratioStr v).data ∧
        List.IsInfix (toString v).data (outputLine name millis ratioStr v).data := by
  obtain ⟨v1, _, hv1⟩ := testRun_ne_nil CounterVariant.blocking 100 10000 (9/10) e1.rng
    e1.sched e1.millis ratioDisplay09
    (sched_ne_nil_of_perm _ _ _ _ _ h1 (by norm_num) (by norm_num))
  obtain ⟨v2, _, hv2⟩ := testRun_ne_nil CounterVariant.suspending 100 10000 (9/10) e2.rng
    e2.sched e2.millis ratioDisplay09
    (sched_ne_nil_of_perm _ _ _ _ _ h2 (by norm_num) (by norm_num))
  obtain ⟨v3, _, hv3⟩ := testRun_ne_nil CounterVariant.blocking 100 10000 (1/2) e3.rng
    e3.sched e3.millis ratioDisplay05
    (sched_ne_nil_of_perm _ _ _ _ _ h3 (by norm_num) (by norm_num))
  obtain ⟨v4, _, hv4⟩ := testRun_ne_nil CounterVariant.suspending 100 10000 (1/2) e4.rng
    e4.sched e4.millis ratioDisplay05
    (sched_ne_nil_of_perm _ _ _ _ _ h4 (by norm_num) (by norm_num))
  refine ⟨v1, v2, v3, v4, ?_, ?_⟩
  · simp only [mainModel]
    rw [hv1, hv2, hv3, hv4]
  · intro name millis ratioStr v
    refine ⟨⟨[], ", time spent: ".data ++ (toString millis).data ++
        " milliseconds, ratio: ".data ++ ratioStr.data ++ ", first val: ".data ++
        (toString v).data, ?_⟩,
      ⟨name.data ++ ", time spent: ".data, " milliseconds, ratio: ".data ++
        ratioStr.data ++ ", first val: ".data ++ (toString v).data, ?_⟩,
      ⟨name.data ++ ", time spent: ".data ++ (toString millis).data ++
        " milliseconds, ratio: ".data, ", first val: ".data ++ (toString v).data, ?_⟩,
      ⟨name.data ++ ", time spent: ".data ++ (toString millis).data ++
        " milliseconds, ratio: ".data ++ ratioStr.data ++ ", first val: ".data, [], ?_⟩⟩ <;>
      simp [outputLine, String.data_append]

def rng0 : Rng := ⟨fun _ => 0, 0⟩

def sched09 : List Op := generatedOps 100 10000 (9/10) rng0

def sched05 : List Op := generatedOps 100 10000 (1/2) rng0

def env1 : RunEnv := ⟨rng0, sched09, 1⟩

def env2 : RunEnv := ⟨rng0, sched09, 2⟩

def env3 : RunEnv := ⟨rng0, sched05, 3⟩

def env4 : RunEnv := ⟨rng0, sched05, 4⟩

theorem C7_fixed_run_matrix_witness :
    ∃ (v1 v2 v3 v4 : Nat),
      mainModel env1 env2 env3 env4 =
        [some (outputLine CounterVariant.blocking.vname env1.millis ratioDisplay09 v1),
         some (outputLine CounterVariant.suspending.vname env2.millis ratioDisplay09 v2),
         some (outputLine CounterVariant.blocking.vname env3.millis ratioDisplay05 v3),
         some (outputLine CounterVariant.suspending.vname env4.millis ratioDisplay05 v4)] ∧
      ∀ (name : String) (millis : Nat) (ratioStr : String) (v : Nat),
        List.IsInfix name.data (outputLine name millis ratioStr v).data ∧
        List.IsInfix (toString millis).data (outputLine name millis ratioStr v).data ∧
        List.IsInfix ratioStr.data (outputLine name millis ratioStr v).data ∧
        List.IsInfix (toString v).data (outputLine name millis ratioStr v).data :=
  C7_fixed_run_matrix env1 env2 env3 env4 (List.Perm.refl sched09) (List.Perm.refl sched09)
    (List.Perm.refl sched05) (List.Perm.refl sched05)

end BenchLocks
